import Mathlib

/-!
Verification of the phoneint core against its specification.

This file gives a shallow embedding, in Lean 4, of the parts of the
phone-number-lookup repository that the specification talks about:

- the SQLite TTL cache (`phoneint/cache.py`, class SQLiteTTLCache);
- the retrying HTTP transport (`phoneint/net/http.py`,
  request_with_retries and compute_backoff);
- the adapter fan-out loop of the CLI (`phoneint/cli.py`, run_adapters);
- the risk scorer (`phoneint/reputation/score.py`, score_risk and
  default_score_weights);
- the ownership classifier (`phoneint/owner/classify.py`, classify);
- the consent-gated owner-intel engine
  (`phoneint/owner/signals.py`, OwnerIntelEngine.build);
- the two search adapters (`phoneint/reputation/duckduckgo.py` and
  `phoneint/reputation/google.py`).

Machine integers are modelled as Nat/Int, Python floats as rationals,
Python dicts as association lists with insert-or-replace semantics, and
exceptions as explicit outcome types.  Wall-clock instants are modelled
as integer epoch seconds, matching the `int(time.time())` truncation used
by the cache.  Concurrency is modelled by the deterministic data flow of
the merging loops, which in the source consume task results strictly in
the order the adapters were listed.
-/

/-! ## SQLite TTL cache (`phoneint/cache.py`)

A cache state is the contents of the single `cache` table: rows of
(key, stored value, expires_at).  The primary-key discipline of SQLite is
mirrored by `cache_set` deleting any old row for the key before inserting
(`INSERT OR REPLACE`).  `json.dumps`/`json.loads` round-tripping of
JSON-serializable values is modelled as the identity, so the stored value
type is a type parameter. -/

structure CacheRow (V : Type) where
  key : String
  value : V
  expires_at : Int
deriving DecidableEq

/-- The contents of the `cache` table. -/
abbrev CacheTable (V : Type) : Type := List (CacheRow V)

/-- The `SELECT value_json, expires_at FROM cache WHERE key = ?` query:
first row with the given key. -/
def cache_find {V : Type} (table : CacheTable V) (key : String) : Option (CacheRow V) :=
  table.find? (fun row => row.key == key)

/-- `DELETE FROM cache WHERE key = ?`. -/
def cache_delete_key {V : Type} (table : CacheTable V) (key : String) : CacheTable V :=
  table.filter (fun row => row.key != key)

/-- `SQLiteTTLCache.get`: look the key up; an entry with
`expires_at <= now` is deleted and reported as absent.  Returns the
fetched value (if any) together with the table after the call. -/
def cache_get {V : Type} (table : CacheTable V) (key : String) (now : Int) :
    Option V × CacheTable V :=
  match cache_find table key with
  | none => (none, table)
  | some row =>
    if row.expires_at ≤ now then (none, cache_delete_key table key)
    else (some row.value, table)

/-- `SQLiteTTLCache.set`: a non-positive TTL stores nothing; otherwise
`INSERT OR REPLACE` with `expires_at = int(time.time()) + int(ttl)`. -/
def cache_set {V : Type} (table : CacheTable V) (key : String) (value : V)
    (ttl_seconds : Int) (now : Int) : CacheTable V :=
  if ttl_seconds ≤ 0 then table
  else cache_delete_key table key ++ [⟨key, value, now + ttl_seconds⟩]

/-- `SQLiteTTLCache.delete_expired`: `DELETE FROM cache WHERE expires_at <= ?`.
Returns the surviving table and the number of deleted rows. -/
def delete_expired {V : Type} (table : CacheTable V) (now : Int) : CacheTable V × Nat :=
  (table.filter (fun row => decide (now < row.expires_at)),
   (table.filter (fun row => decide (row.expires_at ≤ now))).length)

/-! ## Ownership classification (`phoneint/owner/classify.py`)

`classify(parsed_number, associations, *, voip_flag, pii)`.  The parsed
number is never inspected; it is kept as an opaque E.164 string so the
Lean signature mirrors the Python one. -/

structure OwnerAssociationM where
  source : String
  url : Option String
  snippet : String
  label : String
deriving DecidableEq

structure OwnerPIIM where
  name : String
  source : String
  owner_category : String
deriving DecidableEq

/-- Opaque stand-in for the external `phonenumbers.PhoneNumber` object. -/
structure PhoneNumberM where
  e164 : String
deriving DecidableEq

/-- `classify` from `phoneint/owner/classify.py`: PII category first, then
the voip flag, then the association labels. -/
def classify (parsed_number : PhoneNumberM) (associations : List OwnerAssociationM)
    (voip_flag : Bool) (pii : Option OwnerPIIM) : String :=
  let _ := parsed_number
  match pii with
  | some p => p.owner_category
  | none =>
    if voip_flag then "voip"
    else if associations.any (fun a => a.label == "business_listing") then "business"
    else if associations.any (fun a => a.label == "classified_ad") then "individual"
    else "unknown"

/-! ## Risk scoring (`phoneint/reputation/score.py`)

Python floats are modelled as rationals and the one-argument Python
`round` (round half to even) is modelled by `pythonRound`.  Weight
mappings passed by callers are modelled as partial functions
`String → Option ℚ`; `dict(default_score_weights())` updated with the
mapping and then queried via `.get(name, 0.0)` is `effective_weight`. -/

structure ScoreSignalM where
  name : String
  weight : ℚ
  value : ℚ
  contribution : ℚ
  reason : String
deriving DecidableEq

structure RiskScoreResultM where
  score : Int
  breakdown : List ScoreSignalM
deriving DecidableEq

/-- `default_score_weights()` from `phoneint/reputation/score.py`. -/
def default_score_weights : List (String × ℚ) :=
  [("found_in_scam_db", 60), ("voip", 15), ("found_in_classifieds", 15),
   ("business_listing", -10), ("age_of_first_mention_per_year", -2)]

/-- `w = dict(default_score_weights()); w.update(weights); w.get(name, 0.0)`. -/
def effective_weight (weights : String → Option ℚ) (name : String) : ℚ :=
  match weights name with
  | some v => v
  | none => ((default_score_weights.lookup name).getD 0)

/-- `_clamp(n, lo, hi) = max(lo, min(hi, n))`. -/
def qclamp (n lo hi : ℚ) : ℚ := max lo (min hi n)

/-- Python `round` on a rational: nearest integer, ties to even. -/
def pythonRound (q : ℚ) : Int :=
  if q - ⌊q⌋ < 1/2 then ⌊q⌋
  else if 1/2 < q - ⌊q⌋ then ⌊q⌋ + 1
  else if ⌊q⌋ % 2 = 0 then ⌊q⌋ else ⌊q⌋ + 1

/-- The `add_bool` helper inside `score_risk`. -/
def add_bool_signal (weights : String → Option ℚ) (name : String) (value : Bool)
    (reason : String) : ScoreSignalM :=
  let weight := effective_weight weights name
  let v : ℚ := if value then 1 else 0
  ⟨name, weight, v, weight * v, reason⟩

/-- The age-of-first-mention signal appended by `score_risk` when
`age_of_first_mention_days` is given and non-negative. -/
def age_signal (weights : String → Option ℚ) (days : Int) : ScoreSignalM :=
  let weight := effective_weight weights "age_of_first_mention_per_year"
  let age_years : ℚ := (days : ℚ) / 365
  let capped_years := qclamp age_years 0 10
  ⟨"age_of_first_mention_per_year", weight, capped_years, weight * capped_years,
   "Older first-mention generally reduces risk (capped at 10 years)"⟩

/-- The breakdown list built by `score_risk`, in source order. -/
def score_breakdown (found_in_scam_db voip found_in_classifieds business_listing : Bool)
    (age_of_first_mention_days : Option Int) (weights : String → Option ℚ) :
    List ScoreSignalM :=
  [add_bool_signal weights "found_in_scam_db" found_in_scam_db
     "Matched a public scam dataset",
   add_bool_signal weights "voip" voip
     "libphonenumber classified the number as VOIP",
   add_bool_signal weights "found_in_classifieds" found_in_classifieds
     "Evidence URL matched a classifieds domain heuristic",
   add_bool_signal weights "business_listing" business_listing
     "Evidence URL matched a business listing domain heuristic"]
  ++ (match age_of_first_mention_days with
      | some d => if 0 ≤ d then [age_signal weights d] else []
      | none => [])

/-- `score_risk` from `phoneint/reputation/score.py`:
`score = int(round(_clamp(raw_score, 0.0, 100.0)))`. -/
def score_risk (found_in_scam_db voip found_in_classifieds business_listing : Bool)
    (age_of_first_mention_days : Option Int) (weights : String → Option ℚ) :
    RiskScoreResultM :=
  let breakdown := score_breakdown found_in_scam_db voip found_in_classifieds
    business_listing age_of_first_mention_days weights
  let raw_score := (breakdown.map (fun b => b.contribution)).sum
  ⟨pythonRound (qclamp raw_score 0 100), breakdown⟩

/-! ## Retrying HTTP transport (`phoneint/net/http.py`)

The behaviour of the outside world is a function from the attempt index
to that attempt outcome (a transport error, or a response with a status
code and an optional Retry-After header), and the `random.uniform(0.8, 1.2)`
draws are a function from the attempt index to the drawn factor.  The
embedding records the sequence of `asyncio.sleep` durations together with
how the call ends. -/

/-- The `Retry-After` header of a response: absent, present but not
parseable as a float, or parsed to a number. -/
inductive RetryAfter where
  | absent : RetryAfter
  | unparseable : RetryAfter
  | parsed (v : ℚ) : RetryAfter
deriving DecidableEq

inductive AttemptOutcome where
  | transportError : AttemptOutcome
  | response (status : Nat) (retry_after : RetryAfter) : AttemptOutcome
deriving DecidableEq

/-- How `request_with_retries` ends: a 2xx/3xx response returned, an
`HTTPStatusError` out of `raise_for_status`, or a propagated transport
error. -/
inductive RequestOutcome where
  | success (status : Nat) : RequestOutcome
  | httpError (status : Nat) : RequestOutcome
  | transportFailure : RequestOutcome
deriving DecidableEq

structure RequestTrace where
  sleeps : List ℚ
  outcome : RequestOutcome
deriving DecidableEq

/-- `_compute_backoff(attempt, base=base, cap=cap)` with the
`random.uniform(0.8, 1.2)` draw made explicit as `u`. -/
def compute_backoff (attempt : Nat) (base cap u : ℚ) : ℚ :=
  min cap (base * 2 ^ attempt) * u

/-- `resp.status_code in (429, 500, 502, 503, 504)`. -/
def retryable_status (s : Nat) : Bool :=
  s == 429 || s == 500 || s == 502 || s == 503 || s == 504

/-- The duration slept before retrying a retryable status: the parsed
`Retry-After` header when present and parseable, else the backoff. -/
def retry_sleep (h : RetryAfter) (backoff : ℚ) : ℚ :=
  match h with
  | .parsed v => v
  | .absent => backoff
  | .unparseable => backoff

/-- One pass of the `for attempt in range(config.max_retries + 1)` loop of
`request_with_retries`, starting at `attempt` with `fuel` iterations still
available.  `raise_for_status` raises exactly for status codes >= 400. -/
def request_loop (max_retries : Nat) (base cap : ℚ) (att : Nat → AttemptOutcome)
    (u : Nat → ℚ) : Nat → Nat → RequestTrace
  | 0, _ => ⟨[], .transportFailure⟩
  | fuel + 1, attempt =>
    match att attempt with
    | .transportError =>
      if max_retries ≤ attempt then ⟨[], .transportFailure⟩
      else
        let tail := request_loop max_retries base cap att u fuel (attempt + 1)
        ⟨compute_backoff attempt base cap (u attempt) :: tail.sleeps, tail.outcome⟩
    | .response s h =>
      if retryable_status s then
        if max_retries ≤ attempt then ⟨[], .httpError s⟩
        else
          let sleep_for := retry_sleep h (compute_backoff attempt base cap (u attempt))
          let tail := request_loop max_retries base cap att u fuel (attempt + 1)
          ⟨sleep_for :: tail.sleeps, tail.outcome⟩
      else if 400 ≤ s then ⟨[], .httpError s⟩
      else ⟨[], .success s⟩

/-- `request_with_retries` from `phoneint/net/http.py`, as the trace of
sleeps plus the final outcome. -/
def request_with_retries (max_retries : Nat) (base cap : ℚ) (att : Nat → AttemptOutcome)
    (u : Nat → ℚ) : RequestTrace :=
  request_loop max_retries base cap att u (max_retries + 1) 0

/-- An attempt outcome on which the loop retries (when attempts remain):
a transport error or a retryable HTTP status. -/
def retries_on (o : AttemptOutcome) : Bool :=
  match o with
  | .transportError => true
  | .response s _ => retryable_status s

/-- The duration `request_with_retries` sleeps after attempt `a` when it
retries. -/
def expected_sleep (att : Nat → AttemptOutcome) (u : Nat → ℚ) (base cap : ℚ)
    (a : Nat) : ℚ :=
  match att a with
  | .transportError => compute_backoff a base cap (u a)
  | .response _ h => retry_sleep h (compute_backoff a base cap (u a))

/-! ## CLI adapter fan-out (`phoneint/cli.py`, `_run_adapters`)

The function creates one task per adapter and then awaits the tasks in
the order the adapters were passed, extending `all_results` with each
successful result list and recording each non-cancellation exception in
the `errors` dict keyed by adapter name.  Each adapter therefore
contributes through its own outcome only, so an adapter is modelled by
its name and its outcome; cancellation propagates (`Except.error`). -/

structure SearchResultM where
  title : String
  url : String
  snippet : String
  timestamp : Int
  source : String
deriving DecidableEq

inductive CheckOutcome where
  | ok (results : List SearchResultM) : CheckOutcome
  | err (msg : String) : CheckOutcome
  | cancelled : CheckOutcome
deriving DecidableEq

structure RepAdapterM where
  name : String
  outcome : CheckOutcome
deriving DecidableEq

/-- Python `k in d` on a dict modelled as an association list. -/
def has_key (d : List (String × String)) (k : String) : Bool :=
  d.any (fun p => p.1 == k)

/-- Python dict assignment `d[k] = v`: overwrite in place if the key is
present, else append. -/
def dict_insert (d : List (String × String)) (k v : String) : List (String × String) :=
  if d.any (fun p => p.1 == k) then
    d.map (fun p => if p.1 == k then (k, v) else p)
  else d ++ [(k, v)]

/-- The `for name, task in zip(names, tasks)` loop of `_run_adapters`. -/
def run_adapters_loop (acc : List SearchResultM) (errors : List (String × String)) :
    List RepAdapterM → Except Unit (List SearchResultM × List (String × String))
  | [] => .ok (acc, errors)
  | a :: rest =>
    match a.outcome with
    | .ok results => run_adapters_loop (acc ++ results) errors rest
    | .cancelled => .error ()
    | .err msg => run_adapters_loop acc (dict_insert errors a.name msg) rest

/-- `_run_adapters` from `phoneint/cli.py`. -/
def run_adapters (adapters : List RepAdapterM) :
    Except Unit (List SearchResultM × List (String × String)) :=
  run_adapters_loop [] [] adapters

/-- The result list an adapter contributes to the merged evidence. -/
def success_results (a : RepAdapterM) : List SearchResultM :=
  match a.outcome with
  | .ok results => results
  | _ => []

/-- The (name, message) pairs of the failing adapters, in order. -/
def failure_entries (adapters : List RepAdapterM) : List (String × String) :=
  adapters.filterMap (fun a =>
    match a.outcome with
    | .err msg => some (a.name, msg)
    | _ => none)

/-! ## Owner-intel engine (`phoneint/owner/signals.py`, `OwnerIntelEngine.build`)

`LegalBasis` is a `TypedDict` with `total=False`, so each field may be
absent; `legal_basis.get("consent_obtained") is not True` is
`consent_obtained ≠ some true`.  An owner adapter is modelled by its
name, its `pii_capable` flag, and the outcome of its single
`lookup_owner` call in this run: a result, a raised `PermissionError`,
or any other raised exception.  The engine loop catches other
exceptions and continues, but re-raises `PermissionError` after
appending the audit record, which aborts the remaining iterations; the
embedding records the invoked adapters, the audit records created, the
accumulated associations, and whether the loop was aborted by a
re-raised `PermissionError`.  The `time=now_utc()` field of an audit
record is a wall-clock instant outside the embedding and is omitted. -/

structure LegalBasisM where
  purpose : Option String
  consent_obtained : Option Bool
deriving DecidableEq

inductive LookupOutcome where
  | ok (associations : List OwnerAssociationM) (pii : Option OwnerPIIM) : LookupOutcome
  | permissionError : LookupOutcome
  | otherError : LookupOutcome
deriving DecidableEq

structure OwnerAdapterM where
  name : String
  pii_capable : Bool
  outcome : LookupOutcome
deriving DecidableEq

structure OwnerAuditRecordM where
  adapter : String
  legal_basis : LegalBasisM
  caller : String
  result : String
deriving DecidableEq

/-- The two `continue` guards at the top of the adapter loop of `build`:
a PII-capable adapter is invoked only when `allow_pii` holds and the
legal basis is present with `consent_obtained == True`. -/
def adapter_invoked (allow_pii : Bool) (legal_basis : Option LegalBasisM)
    (a : OwnerAdapterM) : Bool :=
  if a.pii_capable && !allow_pii then false
  else if a.pii_capable &&
      !(match legal_basis with
        | none => false
        | some lb => lb.consent_obtained == some true) then false
  else true

/-- The `result` field of the audit record for an invocation:
`"pii_returned" if res.pii is not None else "none"` on success,
`"error"` on a raised exception. -/
def audit_result (o : LookupOutcome) : String :=
  match o with
  | .ok _ (some _) => "pii_returned"
  | .ok _ none => "none"
  | .permissionError => "error"
  | .otherError => "error"

/-- The audit record appended for an invoked adapter, when
`adapter.pii_capable and legal_basis is not None`. -/
def mk_audit (a : OwnerAdapterM) (legal_basis : Option LegalBasisM)
    (caller : String) : OwnerAuditRecordM :=
  ⟨a.name, legal_basis.getD ⟨none, none⟩, caller, audit_result a.outcome⟩

/-- The observable effects of the adapter loop of `OwnerIntelEngine.build`. -/
structure BuildRun where
  invoked : List OwnerAdapterM
  audit : List OwnerAuditRecordM
  associations : List OwnerAssociationM
  aborted : Bool
deriving DecidableEq

/-- The `for adapter in self._adapters` loop of `OwnerIntelEngine.build`.
A skipped adapter leaves no trace; an invoked adapter appends its
associations on success and its audit record when it is PII-capable with
a present legal basis; a raised `PermissionError` appends the audit
record and then aborts the loop; any other exception appends the audit
record and continues. -/
def build_loop (allow_pii : Bool) (legal_basis : Option LegalBasisM) (caller : String) :
    List OwnerAdapterM → BuildRun
  | [] => ⟨[], [], [], false⟩
  | a :: rest =>
    if adapter_invoked allow_pii legal_basis a then
      let guard := a.pii_capable && legal_basis.isSome
      match a.outcome with
      | .ok assoc _ =>
        let tail := build_loop allow_pii legal_basis caller rest
        ⟨a :: tail.invoked,
         (if guard then [mk_audit a legal_basis caller] else []) ++ tail.audit,
         assoc ++ tail.associations,
         tail.aborted⟩
      | .permissionError =>
        ⟨[a], if guard then [mk_audit a legal_basis caller] else [], [], true⟩
      | .otherError =>
        let tail := build_loop allow_pii legal_basis caller rest
        ⟨a :: tail.invoked,
         (if guard then [mk_audit a legal_basis caller] else []) ++ tail.audit,
         tail.associations,
         tail.aborted⟩
    else build_loop allow_pii legal_basis caller rest

/-! ## Search adapters (`phoneint/reputation/duckduckgo.py` and `google.py`)

The titles claim is about the `SearchResult` lists built from the parsed
JSON payloads, so the embedding starts from the extracted payload data.
Python string slicing `text[:120]` slices by code points, which is
`List.take 120` on the character data of a Lean string. -/

/-- Python `s[:n]`. -/
def py_slice (s : String) (n : Nat) : String := ⟨s.data.take n⟩

/-- An entry of the DuckDuckGo `Results` list or of a `RelatedTopics`
item: the `FirstURL` and `Text` fields (absent or non-string fields are
`none`; the adapter also treats empty strings as missing). -/
structure DDGTopicItem where
  first_url : Option String
  text : Option String
deriving DecidableEq

/-- An entry of the `RelatedTopics` list: either a plain item or a group
carrying a `Topics` list. -/
inductive DDGTopic where
  | item (i : DDGTopicItem) : DDGTopic
  | group (topics : List DDGTopicItem) : DDGTopic
deriving DecidableEq

/-- `_iter_topic_items` from `phoneint/reputation/duckduckgo.py`. -/
def iter_topic_items (related : List DDGTopic) : List DDGTopicItem :=
  related.flatMap (fun t =>
    match t with
    | .item i => [i]
    | .group topics => topics)

/-- The parsed payload of the DuckDuckGo Instant Answer API. -/
structure DDGData where
  abstract_url : Option String
  abstract_text : Option String
  results : List DDGTopicItem
  related_topics : List DDGTopic
deriving DecidableEq

/-- A non-empty string field, as tested by
`isinstance(x, str) and x` in the adapter. -/
def present (s : Option String) : Option String :=
  match s with
  | some v => if v = "" then none else some v
  | none => none

/-- The result built for one DuckDuckGo item: the title is `text[:120]`. -/
def ddg_result (text url : String) (ts : Int) : SearchResultM :=
  ⟨py_slice text 120, url, text, ts, "duckduckgo"⟩

/-- The `Results` loop of `DuckDuckGoInstantAnswerAdapter.search`: append
each well-formed item, returning `results[:limit]` as soon as `limit` is
reached. -/
def ddg_results_loop (ts : Int) (limit : Nat) (acc : List SearchResultM) :
    List DDGTopicItem → Option (List SearchResultM) × List SearchResultM
  | [] => (none, acc)
  | item :: rest =>
    match present item.first_url, present item.text with
    | some url, some text =>
      let acc := acc ++ [ddg_result text url ts]
      if limit ≤ acc.length then (some (acc.take limit), acc)
      else ddg_results_loop ts limit acc rest
    | _, _ => ddg_results_loop ts limit acc rest

/-- The `RelatedTopics` loop: append each well-formed item, breaking once
`limit` is reached. -/
def ddg_related_loop (ts : Int) (limit : Nat) (acc : List SearchResultM) :
    List DDGTopicItem → List SearchResultM
  | [] => acc
  | item :: rest =>
    match present item.first_url, present item.text with
    | some url, some text =>
      let acc := acc ++ [ddg_result text url ts]
      if limit ≤ acc.length then acc
      else ddg_related_loop ts limit acc rest
    | _, _ => ddg_related_loop ts limit acc rest

/-- The result list built from the `AbstractURL`/`AbstractText` pair when
both are present and non-empty. -/
def ddg_abstract_results (data : DDGData) (ts : Int) : List SearchResultM :=
  match present data.abstract_url, present data.abstract_text with
  | some url, some text => [ddg_result text url ts]
  | _, _ => []

/-- `DuckDuckGoInstantAnswerAdapter.search` on an already-parsed payload. -/
def ddg_search (data : DDGData) (ts : Int) (limit : Nat) : List SearchResultM :=
  match ddg_results_loop ts limit (ddg_abstract_results data ts) data.results with
  | (some early, _) => early
  | (none, results) =>
    (ddg_related_loop ts limit results (iter_topic_items data.related_topics)).take limit

/-- An entry of the Google Custom Search `items` list; `item.get(k) or ""`
is modelled by `Option.getD ""`. -/
structure GoogleItem where
  title : Option String
  link : Option String
  snippet : Option String
deriving DecidableEq

/-- The `items` loop of `GoogleCustomSearchAdapter.search`: the title is
copied as-is, and the loop breaks once `limit` results are collected. -/
def google_items_loop (ts : Int) (limit : Nat) (acc : List SearchResultM) :
    List GoogleItem → List SearchResultM
  | [] => acc
  | item :: rest =>
    let acc := acc ++
      [⟨item.title.getD "", item.link.getD "", item.snippet.getD "", ts, "google"⟩]
    if limit ≤ acc.length then acc
    else google_items_loop ts limit acc rest

/-- `GoogleCustomSearchAdapter.search` on an already-parsed payload:
`items` missing or not a list yields `[]`. -/
def google_search (items : Option (List GoogleItem)) (ts : Int) (limit : Nat) :
    List SearchResultM :=
  match items with
  | none => []
  | some items => google_items_loop ts limit [] items

/-! # Theorems -/

/-! ## Cache lemmas -/

theorem cache_find_delete_self {V : Type} (table : CacheTable V) (key : String) :
    cache_find (cache_delete_key table key) key = none := by
  apply List.find?_eq_none.mpr
  intro row hrow
  have hne := (List.mem_filter.mp hrow).2
  simpa using hne

theorem cache_find_append_left_none {V : Type} (t1 t2 : CacheTable V) (key : String)
    (h : cache_find t1 key = none) :
    cache_find (t1 ++ t2) key = cache_find t2 key := by
  unfold cache_find at *
  rw [List.find?_append, h, Option.none_or]

theorem cache_find_set {V : Type} (table : CacheTable V) (key : String) (v : V)
    (ttl t0 : Int) (h : 0 < ttl) :
    cache_find (cache_set table key v ttl t0) key =
      some ⟨key, v, t0 + ttl⟩ := by
  unfold cache_set
  rw [if_neg (by omega)]
  rw [cache_find_append_left_none _ _ _ (cache_find_delete_self table key)]
  simp [cache_find, List.find?]

theorem cache_find_filter_none {V : Type} (table : CacheTable V)
    (q : CacheRow V → Bool) (key : String) (h : cache_find table key = none) :
    cache_find (table.filter q) key = none := by
  apply List.find?_eq_none.mpr
  intro row hrow
  exact List.find?_eq_none.mp h row (List.mem_filter.mp hrow).1

/-- C3: after `set(key, value, ttl)` with positive TTL at time `t0`, `get`
before `t0 + ttl` returns the stored value; `get` at or after `t0 + ttl`
returns nothing and purges the row, so the key is gone from the table and
a later `delete_expired` finds nothing for it; `get` never returns a row
whose `expires_at` is at or before now; and `set` with a non-positive TTL
stores nothing. -/
theorem cache_ttl_claim {V : Type} (table : CacheTable V) (key : String) (v : V)
    (ttl t0 t : Int) :
    (0 < ttl → t < t0 + ttl →
      (cache_get (cache_set table key v ttl t0) key t).1 = some v) ∧
    (0 < ttl → t0 + ttl ≤ t →
      (cache_get (cache_set table key v ttl t0) key t).1 = none ∧
      cache_find (cache_get (cache_set table key v ttl t0) key t).2 key = none ∧
      ∀ t2 : Int,
        cache_find (delete_expired (cache_get (cache_set table key v ttl t0) key t).2 t2).1
          key = none) ∧
    (∀ v2 : V, (cache_get table key t).1 = some v2 →
      ∃ row, cache_find table key = some row ∧ t < row.expires_at ∧ row.value = v2) ∧
    (ttl ≤ 0 → cache_set table key v ttl t0 = table) := by
  refine ⟨?_, ?_, ?_, ?_⟩
  · intro httl ht
    unfold cache_get
    rw [cache_find_set table key v ttl t0 httl]
    simp only
    rw [if_neg (by omega)]
  · intro httl ht
    unfold cache_get
    rw [cache_find_set table key v ttl t0 httl]
    simp only
    rw [if_pos (by omega)]
    refine ⟨rfl, cache_find_delete_self _ key, ?_⟩
    intro t2
    exact cache_find_filter_none _ _ _ (cache_find_delete_self _ key)
  · intro v2 hget
    unfold cache_get at hget
    cases hfind : cache_find table key with
    | none => rw [hfind] at hget; simp at hget
    | some row =>
      rw [hfind] at hget
      simp only at hget
      by_cases hexp : row.expires_at ≤ t
      · rw [if_pos hexp] at hget; simp at hget
      · rw [if_neg hexp] at hget
        simp only [Option.some.injEq] at hget
        exact ⟨row, rfl, by omega, hget⟩
  · intro httl
    unfold cache_set
    rw [if_pos httl]

/-! ## Adapter fan-out lemmas -/

theorem has_key_dict_insert (d : List (String × String)) (k v : String) :
    has_key (dict_insert d k v) k = true := by
  unfold has_key dict_insert
  by_cases h : d.any (fun p => p.1 == k)
  · rw [if_pos h, List.any_map]
    obtain ⟨p, hp, hpk⟩ := List.any_eq_true.mp h
    refine List.any_eq_true.mpr ⟨p, hp, ?_⟩
    simp only [Function.comp, hpk, if_pos]
    simp
  · rw [if_neg h, List.any_append]
    simp
theorem has_key_dict_insert_preserved (d : List (String × String)) (k k2 v : String)
    (h : has_key d k = true) :
    has_key (dict_insert d k2 v) k = true := by
  unfold has_key dict_insert at *
  by_cases h2 : d.any (fun p => p.1 == k2)
  · rw [if_pos h2, List.any_map]
    obtain ⟨p, hp, hpk⟩ := List.any_eq_true.mp h
    refine List.any_eq_true.mpr ⟨p, hp, ?_⟩
    by_cases hk2 : (p.1 == k2) = true
    · simp only [Function.comp, hk2, if_pos]
      simp only [beq_iff_eq] at hpk hk2 ⊢
      rw [← hk2, hpk]
    · simp only [Function.comp, hk2]
      simpa using hpk
  · rw [if_neg h2, List.any_append]
    rw [h]
    simp

theorem mem_dict_insert (d : List (String × String)) (k v k2 v2 : String)
    (h : (k2, v2) ∈ dict_insert d k v) :
    (k2, v2) ∈ d ∨ k2 = k := by
  unfold dict_insert at h
  by_cases hc : d.any (fun p => p.1 == k)
  · rw [if_pos hc] at h
    obtain ⟨p, hp, hmap⟩ := List.mem_map.mp h
    by_cases hpk : (p.1 == k) = true
    · rw [if_pos hpk] at hmap
      right
      exact (Prod.mk.injEq _ _ _ _ ▸ hmap.symm).1.symm ▸ rfl
    · rw [if_neg hpk] at hmap
      left
      rwa [hmap] at hp
  · rw [if_neg hc] at h
    rcases List.mem_append.mp h with h1 | h2
    · left; exact h1
    · right
      have := List.mem_singleton.mp h2
      exact (Prod.mk.injEq _ _ _ _ ▸ this).1

theorem has_key_foldl_preserved (ps : List (String × String))
    (d : List (String × String)) (k : String) (h : has_key d k = true) :
    has_key (ps.foldl (fun d p => dict_insert d p.1 p.2) d) k = true := by
  induction ps generalizing d with
  | nil => exact h
  | cons p rest ih =>
    rw [List.foldl_cons]
    exact ih _ (has_key_dict_insert_preserved d k p.1 p.2 h)

theorem has_key_foldl_of_mem (ps : List (String × String))
    (d : List (String × String)) (k m : String) (h : (k, m) ∈ ps) :
    has_key (ps.foldl (fun d p => dict_insert d p.1 p.2) d) k = true := by
  induction ps generalizing d with
  | nil => simp at h
  | cons p rest ih =>
    rw [List.foldl_cons]
    rcases List.mem_cons.mp h with heq | hmem
    · cases heq
      exact has_key_foldl_preserved rest _ k (has_key_dict_insert d k m)
    · exact ih _ hmem

theorem mem_foldl_dict_insert (ps : List (String × String))
    (d : List (String × String)) (k v : String)
    (h : (k, v) ∈ ps.foldl (fun d p => dict_insert d p.1 p.2) d) :
    (k, v) ∈ d ∨ k ∈ ps.map Prod.fst := by
  induction ps generalizing d with
  | nil => left; exact h
  | cons p rest ih =>
    rw [List.foldl_cons] at h
    rcases ih _ h with hd | hk
    · rcases mem_dict_insert _ _ _ _ _ hd with h1 | h2
      · left; exact h1
      · right; simp [h2]
    · right; simp [hk]

theorem run_adapters_loop_ok (adapters : List RepAdapterM)
    (acc : List SearchResultM) (errors : List (String × String))
    (h : ∀ a ∈ adapters, a.outcome ≠ .cancelled) :
    run_adapters_loop acc errors adapters =
      .ok (acc ++ (adapters.map success_results).flatten,
           (failure_entries adapters).foldl (fun d p => dict_insert d p.1 p.2) errors) := by
  induction adapters generalizing acc errors with
  | nil => simp [run_adapters_loop, failure_entries]
  | cons a rest ih =>
    have hrest : ∀ b ∈ rest, b.outcome ≠ .cancelled :=
      fun b hb => h b (List.mem_cons_of_mem a hb)
    cases hout : a.outcome with
    | ok rs =>
      simp only [run_adapters_loop, hout]
      rw [ih _ _ hrest]
      simp [failure_entries, success_results, hout, List.append_assoc]
    | err msg =>
      simp only [run_adapters_loop, hout]
      rw [ih _ _ hrest]
      simp [failure_entries, success_results, hout]
    | cancelled =>
      exact absurd hout (h a (List.mem_cons_self a rest))

/-- C10: the evidence list returned by `_run_adapters` is exactly the
concatenation of the result lists of the successful adapters in the order the
adapters were passed in, and the errors dict is built from the failing
adapters in that same order — the merge is a deterministic function of
the output of each adapter alone. -/
theorem run_adapters_merge_claim (adapters : List RepAdapterM)
    (h : ∀ a ∈ adapters, a.outcome ≠ .cancelled) :
    run_adapters adapters =
      .ok ((adapters.map success_results).flatten,
           (failure_entries adapters).foldl (fun d p => dict_insert d p.1 p.2) []) := by
  unfold run_adapters
  simpa using run_adapters_loop_ok adapters [] [] h

theorem run_adapters_merge_claim_witness :
    run_adapters
      [⟨"duckduckgo", .ok [⟨"t1", "u1", "s1", 0, "duckduckgo"⟩]⟩,
       ⟨"public_scam_db", .ok [⟨"t2", "u2", "s2", 0, "public_scam_db"⟩]⟩] =
      .ok ([⟨"t1", "u1", "s1", 0, "duckduckgo"⟩, ⟨"t2", "u2", "s2", 0, "public_scam_db"⟩],
           []) := by
  have := run_adapters_merge_claim
    [⟨"duckduckgo", .ok [⟨"t1", "u1", "s1", 0, "duckduckgo"⟩]⟩,
     ⟨"public_scam_db", .ok [⟨"t2", "u2", "s2", 0, "public_scam_db"⟩]⟩]
    (by decide)
  simpa [failure_entries, success_results] using this

/-- C5: when every adapter outcome is non-cancellation and some adapter
fails, `_run_adapters` still returns normally; every failing adapter has
its name as a key of the errors dict, every entry of the errors dict
originates from a failing adapter (so a successful adapter contributes no
entry), and the evidence contains every result of every successful
adapter. -/
theorem run_adapters_partial_failure_claim (adapters : List RepAdapterM)
    (hnc : ∀ a ∈ adapters, a.outcome ≠ .cancelled)
    (_hfail : ∃ a ∈ adapters, ∃ m, a.outcome = .err m) :
    ∃ evidence errors, run_adapters adapters = .ok (evidence, errors) ∧
      (∀ a ∈ adapters, ∀ m, a.outcome = .err m → has_key errors a.name = true) ∧
      (∀ k v, (k, v) ∈ errors → ∃ a ∈ adapters, k = a.name ∧ ∃ m, a.outcome = .err m) ∧
      (∀ a ∈ adapters, ∀ rs, a.outcome = .ok rs → ∀ r ∈ rs, r ∈ evidence) := by
  refine ⟨(adapters.map success_results).flatten,
          (failure_entries adapters).foldl (fun d p => dict_insert d p.1 p.2) [],
          run_adapters_merge_claim adapters hnc, ?_, ?_, ?_⟩
  · intro a ha m hm
    have hmem : (a.name, m) ∈ failure_entries adapters := by
      unfold failure_entries
      exact List.mem_filterMap.mpr ⟨a, ha, by simp [hm]⟩
    exact has_key_foldl_of_mem _ _ _ _ hmem
  · intro k v hkv
    rcases mem_foldl_dict_insert _ _ _ _ hkv with hnil | hk
    · simp at hnil
    · obtain ⟨p, hp, hfst⟩ := List.mem_map.mp hk
      obtain ⟨a, ha, hfa⟩ := List.mem_filterMap.mp hp
      cases houta : a.outcome with
      | ok rs => simp [failure_entries, houta] at hfa
      | cancelled => simp [failure_entries, houta] at hfa
      | err m =>
        simp only [failure_entries, houta, Option.some.injEq] at hfa
        subst hfa
        exact ⟨a, ha, hfst.symm, m, houta⟩
  · intro a ha rs hrs r hr
    exact List.mem_flatten.mpr
      ⟨rs, List.mem_map.mpr ⟨a, ha, by simp [success_results, hrs]⟩, hr⟩

theorem run_adapters_partial_failure_claim_witness :
    ∃ evidence errors,
      run_adapters
        [⟨"duckduckgo", .ok [⟨"t1", "u1", "s1", 0, "duckduckgo"⟩]⟩,
         ⟨"google", .err "HTTPStatusError: 500"⟩] = .ok (evidence, errors) ∧
      (∀ a ∈ [(⟨"duckduckgo", .ok [⟨"t1", "u1", "s1", 0, "duckduckgo"⟩]⟩ : RepAdapterM),
              ⟨"google", .err "HTTPStatusError: 500"⟩],
        ∀ m, a.outcome = .err m → has_key errors a.name = true) ∧
      (∀ k v, (k, v) ∈ errors →
        ∃ a ∈ [(⟨"duckduckgo", .ok [⟨"t1", "u1", "s1", 0, "duckduckgo"⟩]⟩ : RepAdapterM),
               ⟨"google", .err "HTTPStatusError: 500"⟩],
          k = a.name ∧ ∃ m, a.outcome = .err m) ∧
      (∀ a ∈ [(⟨"duckduckgo", .ok [⟨"t1", "u1", "s1", 0, "duckduckgo"⟩]⟩ : RepAdapterM),
              ⟨"google", .err "HTTPStatusError: 500"⟩],
        ∀ rs, a.outcome = .ok rs → ∀ r ∈ rs, r ∈ evidence) :=
  run_adapters_partial_failure_claim
    [⟨"duckduckgo", .ok [⟨"t1", "u1", "s1", 0, "duckduckgo"⟩]⟩,
     ⟨"google", .err "HTTPStatusError: 500"⟩]
    (by decide) ⟨⟨"google", .err "HTTPStatusError: 500"⟩, by decide, "HTTPStatusError: 500", rfl⟩

/-! ## Owner-intel engine lemmas -/

theorem adapter_invoked_pii (p : Bool) (lb : Option LegalBasisM) (a : OwnerAdapterM)
    (hinv : adapter_invoked p lb a = true) (hpc : a.pii_capable = true) :
    p = true ∧ ∃ b, lb = some b ∧ b.consent_obtained = some true := by
  unfold adapter_invoked at hinv
  rw [hpc] at hinv
  by_cases hp : p = true
  · refine ⟨hp, ?_⟩
    rw [hp] at hinv
    simp only [Bool.not_true, Bool.and_false, Bool.false_eq_true, if_false, Bool.true_and,
      Bool.not_eq_true'] at hinv
    cases lb with
    | none => simp at hinv
    | some b =>
      have hinv2 : (if (b.consent_obtained == some true) = false then false else true) = true :=
        hinv
      by_cases hc : (b.consent_obtained == some true) = true
      · exact ⟨b, rfl, by simpa using hc⟩
      · simp only [Bool.not_eq_true] at hc
        rw [hc] at hinv2
        simp at hinv2
  · exfalso
    simp only [Bool.not_eq_true] at hp
    rw [hp] at hinv
    simp at hinv

theorem adapter_invoked_iff (p : Bool) (lb : Option LegalBasisM) (a : OwnerAdapterM) :
    adapter_invoked p lb a = true ↔
      (a.pii_capable = true →
        p = true ∧ ∃ b, lb = some b ∧ b.consent_obtained = some true) := by
  constructor
  · intro hinv hpc
    exact adapter_invoked_pii p lb a hinv hpc
  · intro h
    cases hpc : a.pii_capable with
    | false => simp [adapter_invoked, hpc]
    | true =>
      obtain ⟨hp, b, hlb, hc⟩ := h hpc
      subst hp
      subst hlb
      simp [adapter_invoked, hpc, hc]

theorem build_loop_invoked_gate (p : Bool) (lb : Option LegalBasisM) (caller : String)
    (adapters : List OwnerAdapterM) :
    ∀ a ∈ (build_loop p lb caller adapters).invoked, adapter_invoked p lb a = true := by
  induction adapters with
  | nil => simp [build_loop]
  | cons a rest ih =>
    by_cases hinv : adapter_invoked p lb a = true
    · cases hout : a.outcome with
      | ok assoc piiR =>
        intro c hc
        simp only [build_loop, hinv, if_true, hout] at hc
        rcases List.mem_cons.mp hc with rfl | hc2
        · exact hinv
        · exact ih c hc2
      | permissionError =>
        intro c hc
        simp only [build_loop, hinv, if_true, hout] at hc
        rcases List.mem_singleton.mp hc with rfl
        exact hinv
      | otherError =>
        intro c hc
        simp only [build_loop, hinv, if_true, hout] at hc
        rcases List.mem_cons.mp hc with rfl | hc2
        · exact hinv
        · exact ih c hc2
    · intro c hc
      have hinv2 : adapter_invoked p lb a = false := by simpa using hinv
      simp only [build_loop, hinv2, Bool.false_eq_true, if_false] at hc
      exact ih c hc

theorem build_loop_audit_eq (p : Bool) (lb : Option LegalBasisM) (caller : String)
    (adapters : List OwnerAdapterM) :
    (build_loop p lb caller adapters).audit =
      ((build_loop p lb caller adapters).invoked.filter (fun a => a.pii_capable)).map
        (fun a => mk_audit a lb caller) := by
  induction adapters with
  | nil => rfl
  | cons a rest ih =>
    by_cases hinv : adapter_invoked p lb a = true
    · by_cases hpc : a.pii_capable = true
      · obtain ⟨-, b, hlb, -⟩ := adapter_invoked_pii p lb a hinv hpc
        have hsome : lb.isSome = true := by rw [hlb]; rfl
        cases hout : a.outcome with
        | ok assoc piiR => simp [build_loop, hinv, hout, hpc, hsome, ih]
        | permissionError => simp [build_loop, hinv, hout, hpc, hsome]
        | otherError => simp [build_loop, hinv, hout, hpc, hsome, ih]
      · have hpc2 : a.pii_capable = false := by simpa using hpc
        cases hout : a.outcome with
        | ok assoc piiR => simp [build_loop, hinv, hout, hpc2, ih]
        | permissionError => simp [build_loop, hinv, hout, hpc2]
        | otherError => simp [build_loop, hinv, hout, hpc2, ih]
    · have hinv2 : adapter_invoked p lb a = false := by simpa using hinv
      simp only [build_loop, hinv2, Bool.false_eq_true, if_false]
      exact ih

theorem build_loop_normal (p : Bool) (lb : Option LegalBasisM) (caller : String)
    (adapters : List OwnerAdapterM)
    (h : ∀ a ∈ adapters, adapter_invoked p lb a = true → a.outcome ≠ .permissionError) :
    (build_loop p lb caller adapters).invoked = adapters.filter (adapter_invoked p lb) ∧
    (build_loop p lb caller adapters).aborted = false := by
  induction adapters with
  | nil => exact ⟨rfl, rfl⟩
  | cons a rest ih =>
    obtain ⟨ih1, ih2⟩ := ih (fun b hb => h b (List.mem_cons_of_mem a hb))
    by_cases hinv : adapter_invoked p lb a = true
    · cases hout : a.outcome with
      | ok assoc piiR =>
        simp [build_loop, hinv, hout, List.filter_cons, ih1, ih2]
      | permissionError =>
        exact absurd hout (h a (List.mem_cons_self a rest) hinv)
      | otherError =>
        simp [build_loop, hinv, hout, List.filter_cons, ih1, ih2]
    · have hinv2 : adapter_invoked p lb a = false := by simpa using hinv
      simp [build_loop, hinv2, List.filter_cons, ih1, ih2]

theorem build_loop_abort (p : Bool) (lb : Option LegalBasisM) (caller : String)
    (pre post : List OwnerAdapterM) (a : OwnerAdapterM)
    (hpre : ∀ b ∈ pre, adapter_invoked p lb b = true → b.outcome ≠ .permissionError)
    (hinv : adapter_invoked p lb a = true)
    (hout : a.outcome = .permissionError) :
    (build_loop p lb caller (pre ++ a :: post)).invoked =
      pre.filter (adapter_invoked p lb) ++ [a] ∧
    (build_loop p lb caller (pre ++ a :: post)).aborted = true := by
  induction pre with
  | nil => simp [build_loop, hinv, hout]
  | cons b pre ih =>
    obtain ⟨ih1, ih2⟩ := ih (fun c hc => hpre c (List.mem_cons_of_mem b hc))
    by_cases hbinv : adapter_invoked p lb b = true
    · cases hbout : b.outcome with
      | ok assoc piiR =>
        simp [build_loop, hbinv, hbout, List.filter_cons, ih1, ih2]
      | permissionError =>
        exact absurd hbout (hpre b (List.mem_cons_self b pre) hbinv)
      | otherError =>
        simp [build_loop, hbinv, hbout, List.filter_cons, ih1, ih2]
    · have hbinv2 : adapter_invoked p lb b = false := by simpa using hbinv
      simp [build_loop, hbinv2, List.filter_cons, ih1, ih2]

/-- C1 (amended): in any run of the adapter loop of `OwnerIntelEngine.build`
in which no invoked adapter raises `PermissionError`, the invoked adapters
are exactly the configured adapters passing the gate, in order — and the
gate lets a PII-capable adapter through if and only if `allow_pii` is true,
the legal basis is present, and its `consent_obtained` is `True`, while a
non-PII-capable adapter always passes; skipped adapters raise no error
(the loop completes normally). -/
theorem build_gate_claim (p : Bool) (lb : Option LegalBasisM) (caller : String)
    (adapters : List OwnerAdapterM)
    (h : ∀ a ∈ adapters, adapter_invoked p lb a = true → a.outcome ≠ .permissionError) :
    (build_loop p lb caller adapters).invoked = adapters.filter (adapter_invoked p lb) ∧
    (build_loop p lb caller adapters).aborted = false ∧
    (∀ a : OwnerAdapterM, adapter_invoked p lb a = true ↔
      (a.pii_capable = true →
        p = true ∧ ∃ b, lb = some b ∧ b.consent_obtained = some true)) := by
  obtain ⟨h1, h2⟩ := build_loop_normal p lb caller adapters h
  exact ⟨h1, h2, fun a => adapter_invoked_iff p lb a⟩

theorem build_gate_claim_witness :
    (build_loop true (some ⟨some "customer-verification", some true⟩) "tester"
       [⟨"stub_pii", true, .ok [] (some ⟨"Jane Doe", "stub_pii", "individual"⟩)⟩,
        ⟨"public", false, .ok [] none⟩]).invoked =
      ([⟨"stub_pii", true, .ok [] (some ⟨"Jane Doe", "stub_pii", "individual"⟩)⟩,
        ⟨"public", false, .ok [] none⟩] : List OwnerAdapterM).filter
        (adapter_invoked true (some ⟨some "customer-verification", some true⟩)) ∧
    (build_loop true (some ⟨some "customer-verification", some true⟩) "tester"
       [⟨"stub_pii", true, .ok [] (some ⟨"Jane Doe", "stub_pii", "individual"⟩)⟩,
        ⟨"public", false, .ok [] none⟩]).aborted = false ∧
    (∀ a : OwnerAdapterM,
      adapter_invoked true (some ⟨some "customer-verification", some true⟩) a = true ↔
      (a.pii_capable = true →
        true = true ∧ ∃ b, (some (⟨some "customer-verification", some true⟩ : LegalBasisM)) =
          some b ∧ b.consent_obtained = some true)) :=
  build_gate_claim true (some ⟨some "customer-verification", some true⟩) "tester"
    [⟨"stub_pii", true, .ok [] (some ⟨"Jane Doe", "stub_pii", "individual"⟩)⟩,
     ⟨"public", false, .ok [] none⟩] (by decide)

/-- C1 is false as stated: when a PII-capable adapter that passes the
consent gate raises `PermissionError` (as the repository Truecaller
adapter does when it is disabled or lacks an API key), `build` re-raises
it, so a non-PII-capable adapter listed after it is never invoked even
though the claim says non-PII-capable adapters always run. -/
theorem build_gate_counterexample :
    ((⟨"public", false, .ok [] none⟩ : OwnerAdapterM) ∈
      ([⟨"truecaller", true, .permissionError⟩, ⟨"public", false, .ok [] none⟩] :
        List OwnerAdapterM)) ∧
    (⟨"public", false, .ok [] none⟩ : OwnerAdapterM).pii_capable = false ∧
    (⟨"public", false, .ok [] none⟩ : OwnerAdapterM) ∉
      (build_loop true (some ⟨none, some true⟩) "cli"
        [⟨"truecaller", true, .permissionError⟩, ⟨"public", false, .ok [] none⟩]).invoked := by
  refine ⟨by decide, rfl, by decide⟩

/-- C2: the audit records created by the adapter loop of
`OwnerIntelEngine.build` are exactly one per invoked PII-capable adapter —
none for non-PII-capable adapters — with the result field determined by
the outcome (`pii_returned` when PII came back, `none` on success without
PII, `error` when the call raised); every PII-capable invocation happens
with a present legal basis. -/
theorem build_audit_claim (p : Bool) (lb : Option LegalBasisM) (caller : String)
    (adapters : List OwnerAdapterM) :
    (build_loop p lb caller adapters).audit =
      ((build_loop p lb caller adapters).invoked.filter (fun a => a.pii_capable)).map
        (fun a => mk_audit a lb caller) ∧
    (∀ a ∈ (build_loop p lb caller adapters).invoked, a.pii_capable = true →
      ∃ b, lb = some b ∧ b.consent_obtained = some true) ∧
    (∀ a : OwnerAdapterM, (mk_audit a lb caller).result = audit_result a.outcome) ∧
    (∀ assoc piiV, audit_result (.ok assoc (some piiV)) = "pii_returned") ∧
    (∀ assoc, audit_result (.ok assoc none) = "none") ∧
    audit_result .permissionError = "error" ∧
    audit_result .otherError = "error" := by
  refine ⟨build_loop_audit_eq p lb caller adapters, ?_,
    fun a => rfl, fun assoc piiV => rfl, fun assoc => rfl, rfl, rfl⟩
  intro a ha hpc
  exact (adapter_invoked_pii p lb a (build_loop_invoked_gate p lb caller adapters a ha) hpc).2

theorem build_audit_claim_witness :
    (build_loop true (some ⟨some "customer-verification", some true⟩) "tester"
       [⟨"stub_pii", true, .ok [] (some ⟨"Jane Doe", "stub_pii", "individual"⟩)⟩]).audit =
      ((build_loop true (some ⟨some "customer-verification", some true⟩) "tester"
        [⟨"stub_pii", true, .ok [] (some ⟨"Jane Doe", "stub_pii", "individual"⟩)⟩]).invoked.filter
          (fun a => a.pii_capable)).map
        (fun a => mk_audit a (some ⟨some "customer-verification", some true⟩) "tester") ∧
    (∃ b, (some (⟨some "customer-verification", some true⟩ : LegalBasisM)) = some b ∧
      b.consent_obtained = some true) := by
  refine ⟨(build_audit_claim true (some ⟨some "customer-verification", some true⟩) "tester"
    [⟨"stub_pii", true, .ok [] (some ⟨"Jane Doe", "stub_pii", "individual"⟩)⟩]).1, ?_⟩
  exact (build_audit_claim true (some ⟨some "customer-verification", some true⟩) "tester"
    [⟨"stub_pii", true, .ok [] (some ⟨"Jane Doe", "stub_pii", "individual"⟩)⟩]).2.1
    ⟨"stub_pii", true, .ok [] (some ⟨"Jane Doe", "stub_pii", "individual"⟩)⟩
    (by decide) rfl

/-- C6 is false as stated: a consented PII-capable adapter raising
`PermissionError` makes `build` itself raise after recording the audit
entry — `build` does not complete, and a later adapter does not run. -/
theorem build_permission_counterexample :
    (build_loop true (some ⟨some "customer-verification", some true⟩) "tester"
       [⟨"truecaller", true, .permissionError⟩, ⟨"public", false, .ok [] none⟩]).aborted =
      true ∧
    (build_loop true (some ⟨some "customer-verification", some true⟩) "tester"
       [⟨"truecaller", true, .permissionError⟩, ⟨"public", false, .ok [] none⟩]).invoked =
      [⟨"truecaller", true, .permissionError⟩] := by
  exact ⟨by decide, by decide⟩

/-- C6 (amended): when a PII-capable adapter invoked with a present legal
basis raises `PermissionError`, an audit record with result `error` is
appended for that call, but the error is then re-raised: the loop aborts,
the adapters before the failure have run normally, and the adapters after
it are never invoked. -/
theorem build_permission_error_claim (p : Bool) (lb : Option LegalBasisM) (caller : String)
    (pre post : List OwnerAdapterM) (a : OwnerAdapterM)
    (hpre : ∀ b ∈ pre, adapter_invoked p lb b = true → b.outcome ≠ .permissionError)
    (hinv : adapter_invoked p lb a = true)
    (hpc : a.pii_capable = true)
    (hout : a.outcome = .permissionError) :
    (build_loop p lb caller (pre ++ a :: post)).aborted = true ∧
    (build_loop p lb caller (pre ++ a :: post)).invoked =
      pre.filter (adapter_invoked p lb) ++ [a] ∧
    (build_loop p lb caller (pre ++ a :: post)).audit =
      ((pre.filter (adapter_invoked p lb)).filter (fun b => b.pii_capable)).map
        (fun b => mk_audit b lb caller) ++ [mk_audit a lb caller] ∧
    (mk_audit a lb caller).result = "error" := by
  obtain ⟨hinvoked, haborted⟩ := build_loop_abort p lb caller pre post a hpre hinv hout
  refine ⟨haborted, hinvoked, ?_, ?_⟩
  · have haudit := build_loop_audit_eq p lb caller (pre ++ a :: post)
    rw [hinvoked] at haudit
    rw [haudit, List.filter_append, List.map_append]
    congr 1
    simp [hpc]
  · simp [mk_audit, hout, audit_result]

theorem build_permission_error_claim_witness :
    (build_loop true (some ⟨some "diagnostics", some true⟩) "tester"
       ([] ++ (⟨"truecaller", true, .permissionError⟩ : OwnerAdapterM) ::
        [⟨"public", false, .ok [] none⟩])).aborted = true ∧
    (build_loop true (some ⟨some "diagnostics", some true⟩) "tester"
       ([] ++ (⟨"truecaller", true, .permissionError⟩ : OwnerAdapterM) ::
        [⟨"public", false, .ok [] none⟩])).invoked =
      ([] : List OwnerAdapterM).filter
        (adapter_invoked true (some ⟨some "diagnostics", some true⟩)) ++
      [⟨"truecaller", true, .permissionError⟩] ∧
    (build_loop true (some ⟨some "diagnostics", some true⟩) "tester"
       ([] ++ (⟨"truecaller", true, .permissionError⟩ : OwnerAdapterM) ::
        [⟨"public", false, .ok [] none⟩])).audit =
      ((([] : List OwnerAdapterM).filter
          (adapter_invoked true (some ⟨some "diagnostics", some true⟩))).filter
        (fun b => b.pii_capable)).map
        (fun b => mk_audit b (some ⟨some "diagnostics", some true⟩) "tester") ++
      [mk_audit ⟨"truecaller", true, .permissionError⟩
        (some ⟨some "diagnostics", some true⟩) "tester"] ∧
    (mk_audit ⟨"truecaller", true, .permissionError⟩
      (some ⟨some "diagnostics", some true⟩) "tester").result = "error" :=
  build_permission_error_claim true (some ⟨some "diagnostics", some true⟩) "tester"
    [] [⟨"public", false, .ok [] none⟩] ⟨"truecaller", true, .permissionError⟩
    (by intro b hb; simp at hb) (by decide) rfl rfl

/-! ## Search adapter title lemmas -/

theorem ddg_result_title_le (text url : String) (ts : Int) :
    (ddg_result text url ts).title.length ≤ 120 := by
  show (text.data.take 120).length ≤ 120
  rw [List.length_take]
  exact min_le_left _ _

theorem ddg_abstract_results_titles (data : DDGData) (ts : Int) :
    ∀ r ∈ ddg_abstract_results data ts, r.title.length ≤ 120 := by
  unfold ddg_abstract_results
  rcases present data.abstract_url with _ | url <;>
    rcases present data.abstract_text with _ | text <;>
    simp [ddg_result_title_le]

theorem ddg_results_loop_titles (ts : Int) (limit : Nat) :
    ∀ (items : List DDGTopicItem) (acc : List SearchResultM),
      (∀ r ∈ acc, r.title.length ≤ 120) →
      (∀ l, (ddg_results_loop ts limit acc items).1 = some l →
        ∀ r ∈ l, r.title.length ≤ 120) ∧
      (∀ r ∈ (ddg_results_loop ts limit acc items).2, r.title.length ≤ 120) := by
  intro items
  induction items with
  | nil =>
    intro acc hacc
    constructor
    · intro l hl
      simp [ddg_results_loop] at hl
    · intro r hr
      exact hacc r (by simpa [ddg_results_loop] using hr)
  | cons item rest ih =>
    intro acc hacc
    cases hu : present item.first_url with
    | none =>
      simp only [ddg_results_loop, hu]
      exact ih acc hacc
    | some url =>
      cases ht : present item.text with
      | none =>
        simp only [ddg_results_loop, hu, ht]
        exact ih acc hacc
      | some text =>
        have hacc2 : ∀ r ∈ acc ++ [ddg_result text url ts], r.title.length ≤ 120 := by
          intro r hr
          rcases List.mem_append.mp hr with h1 | h2
          · exact hacc r h1
          · rw [List.mem_singleton.mp h2]
            exact ddg_result_title_le text url ts
        simp only [ddg_results_loop, hu, ht]
        by_cases hlen : limit ≤ (acc ++ [ddg_result text url ts]).length
        · rw [if_pos hlen]
          constructor
          · intro l hl r hr
            simp only [Option.some.injEq] at hl
            rw [← hl] at hr
            exact hacc2 r (List.take_subset _ _ hr)
          · intro r hr
            exact hacc2 r hr
        · rw [if_neg hlen]
          exact ih _ hacc2

theorem ddg_related_loop_titles (ts : Int) (limit : Nat) :
    ∀ (items : List DDGTopicItem) (acc : List SearchResultM),
      (∀ r ∈ acc, r.title.length ≤ 120) →
      ∀ r ∈ ddg_related_loop ts limit acc items, r.title.length ≤ 120 := by
  intro items
  induction items with
  | nil =>
    intro acc hacc r hr
    exact hacc r (by simpa [ddg_related_loop] using hr)
  | cons item rest ih =>
    intro acc hacc
    cases hu : present item.first_url with
    | none =>
      simp only [ddg_related_loop, hu]
      exact ih acc hacc
    | some url =>
      cases ht : present item.text with
      | none =>
        simp only [ddg_related_loop, hu, ht]
        exact ih acc hacc
      | some text =>
        have hacc2 : ∀ r ∈ acc ++ [ddg_result text url ts], r.title.length ≤ 120 := by
          intro r hr
          rcases List.mem_append.mp hr with h1 | h2
          · exact hacc r h1
          · rw [List.mem_singleton.mp h2]
            exact ddg_result_title_le text url ts
        simp only [ddg_related_loop, hu, ht]
        by_cases hlen : limit ≤ (acc ++ [ddg_result text url ts]).length
        · rw [if_pos hlen]
          exact hacc2
        · rw [if_neg hlen]
          exact ih _ hacc2

/-- C9 (amended): every `SearchResult` built by the DuckDuckGo
instant-answer adapter has a title of at most 120 characters
(titles are sliced with `text[:120]`); the authenticated Google
custom-search adapter copies item titles unmodified and enforces no such
bound. -/
theorem ddg_search_title_claim (data : DDGData) (ts : Int) (limit : Nat) :
    ∀ r ∈ ddg_search data ts limit, r.title.length ≤ 120 := by
  intro r hr
  unfold ddg_search at hr
  obtain ⟨h1, h2⟩ := ddg_results_loop_titles ts limit data.results
    (ddg_abstract_results data ts) (ddg_abstract_results_titles data ts)
  cases hloop : ddg_results_loop ts limit (ddg_abstract_results data ts) data.results with
  | mk fst snd =>
    rw [hloop] at hr h1 h2
    cases fst with
    | some early =>
      simp only at hr h1
      exact h1 early rfl r hr
    | none =>
      simp only at hr h2
      exact ddg_related_loop_titles ts limit (iter_topic_items data.related_topics) snd h2 r
        (List.take_subset _ _ hr)

theorem ddg_search_title_claim_witness :
    (ddg_result "hello" "https://example.org" 0) ∈
      ddg_search ⟨some "https://example.org", some "hello", [], []⟩ 0 5 ∧
    (ddg_result "hello" "https://example.org" 0).title.length ≤ 120 := by
  refine ⟨by decide, ?_⟩
  exact ddg_search_title_claim ⟨some "https://example.org", some "hello", [], []⟩ 0 5
    (ddg_result "hello" "https://example.org" 0) (by decide)

/-- C9 is false as stated: the Google custom-search adapter does not
truncate titles, so an item whose title has 121 characters yields a
`SearchResult` whose title has 121 characters. -/
theorem google_title_counterexample :
    ¬ (∀ r ∈ google_search
        (some [⟨some ⟨List.replicate 121 'a'⟩, some "https://e.example", some "s"⟩]) 0 5,
      r.title.length ≤ 120) := by
  intro hall
  have hmem : (⟨⟨List.replicate 121 'a'⟩, "https://e.example", "s", 0, "google"⟩ : SearchResultM) ∈
      google_search
        (some [⟨some ⟨List.replicate 121 'a'⟩, some "https://e.example", some "s"⟩]) 0 5 := by
    simp [google_search, google_items_loop]
  have := hall _ hmem
  simp only [String.length] at this
  rw [List.length_replicate] at this
  omega

/-! ## Retrying transport lemmas -/

theorem request_loop_sleep (max_retries : Nat) (base cap : ℚ) (att : Nat → AttemptOutcome)
    (u : Nat → ℚ) :
    ∀ (a attempt fuel : Nat), a < fuel → attempt + a < max_retries →
      (∀ i, i < a → retries_on (att (attempt + i)) = true) →
      retries_on (att (attempt + a)) = true →
      (request_loop max_retries base cap att u fuel attempt).sleeps.get? a =
        some (expected_sleep att u base cap (attempt + a)) := by
  intro a
  induction a with
  | zero =>
    intro attempt fuel hfuel hmax hprev hcur
    obtain ⟨fuel, rfl⟩ : ∃ f, fuel = f + 1 := ⟨fuel - 1, by omega⟩
    rw [Nat.add_zero] at hmax hcur
    cases hout : att attempt with
    | transportError =>
      simp only [request_loop, hout]
      rw [if_neg (by omega)]
      simp [expected_sleep, hout]
    | response s h =>
      have hs : retryable_status s = true := by rw [hout] at hcur; exact hcur
      simp only [request_loop, hout, hs, if_true]
      rw [if_neg (by omega)]
      simp [expected_sleep, hout]
  | succ a ih =>
    intro attempt fuel hfuel hmax hprev hcur
    obtain ⟨fuel, rfl⟩ : ∃ f, fuel = f + 1 := ⟨fuel - 1, by omega⟩
    have h0 : retries_on (att attempt) = true := by
      have := hprev 0 (by omega)
      rwa [Nat.add_zero] at this
    have htail :
        (request_loop max_retries base cap att u fuel (attempt + 1)).sleeps.get? a =
          some (expected_sleep att u base cap (attempt + 1 + a)) := by
      refine ih (attempt + 1) fuel (by omega) (by omega) ?_ ?_
      · intro i hi
        have := hprev (i + 1) (by omega)
        rwa [show attempt + (i + 1) = attempt + 1 + i by omega] at this
      · have := hcur
        rwa [show attempt + (a + 1) = attempt + 1 + a by omega] at this
    cases hout : att attempt with
    | transportError =>
      simp only [request_loop, hout]
      rw [if_neg (by omega)]
      simp only [List.get?]
      rw [htail]
      rw [show attempt + 1 + a = attempt + (a + 1) by omega]
    | response s h =>
      have hs : retryable_status s = true := by rw [hout] at h0; exact h0
      simp only [request_loop, hout, hs, if_true]
      rw [if_neg (by omega)]
      simp only [List.get?]
      rw [htail]
      rw [show attempt + 1 + a = attempt + (a + 1) by omega]

/-- C4 (amended): for every attempt `a < maxRetries` whose response has a
retryable HTTP status (429/500/502/503/504), the duration slept before the
retry is the Retry-After header value when it is present and parseable as
a number, and `backoff(a) = min(cap, base * 2^a) * uniform(0.8, 1.2)`
otherwise — not the max of the two. -/
theorem retry_sleep_claim (max_retries : Nat) (base cap : ℚ) (att : Nat → AttemptOutcome)
    (u : Nat → ℚ) (a s : Nat) (h : RetryAfter)
    (ha : a < max_retries)
    (hprev : ∀ i, i < a → retries_on (att i) = true)
    (hresp : att a = .response s h)
    (hs : retryable_status s = true) :
    (request_with_retries max_retries base cap att u).sleeps.get? a =
      some (retry_sleep h (compute_backoff a base cap (u a))) := by
  have hmain := request_loop_sleep max_retries base cap att u a 0 (max_retries + 1)
    (by omega) (by omega)
    (fun i hi => by rw [Nat.zero_add]; exact hprev i hi)
    (by rw [Nat.zero_add, hresp]; exact hs)
  rw [request_with_retries, hmain, Nat.zero_add]
  simp [expected_sleep, hresp]

theorem retry_sleep_claim_witness :
    (request_with_retries 2 1 8
      (fun i => if i = 0 then .transportError else .response 503 .unparseable)
      (fun _ => 1)).sleeps.get? 1 =
      some (retry_sleep .unparseable (compute_backoff 1 1 8 1)) :=
  retry_sleep_claim 2 1 8
    (fun i => if i = 0 then .transportError else .response 503 .unparseable)
    (fun _ => 1) 1 503 .unparseable (by omega)
    (fun i hi => by interval_cases i; rfl) rfl rfl

/-- C4 is false as stated: when the Retry-After header is present and
parseable as 0 while `backoff(0)` is positive, the code sleeps 0 — the
Retry-After value alone — not `max(Retry-After, backoff(0))`. -/
theorem retry_sleep_counterexample :
    (request_with_retries 1 (1/2) 8
      (fun i => if i = 0 then .response 429 (.parsed 0) else .response 200 .absent)
      (fun _ => 1)).sleeps.get? 0 = some 0 ∧
    max (0 : ℚ) (compute_backoff 0 (1/2) 8 1) = 1/2 ∧
    (0 : ℚ) ≠ 1/2 := by
  refine ⟨rfl, ?_, by norm_num⟩
  rw [compute_backoff, max_def, min_def]
  norm_num

/-! ## Risk scoring lemmas -/

theorem pythonRound_intCast (n : Int) : pythonRound (n : ℚ) = n := by
  unfold pythonRound
  rw [Int.floor_intCast]
  norm_num

theorem pythonRound_le_of_le {x y : ℚ} (h : x ≤ y) : pythonRound x ≤ pythonRound y := by
  have hfl : ⌊x⌋ ≤ ⌊y⌋ := Int.floor_mono h
  have hx_ub : pythonRound x ≤ ⌊x⌋ + 1 := by unfold pythonRound; split_ifs <;> omega
  have hy_lb : ⌊y⌋ ≤ pythonRound y := by unfold pythonRound; split_ifs <;> omega
  rcases lt_or_eq_of_le hfl with hlt | heq
  · omega
  · have hfx : x - ⌊x⌋ ≤ y - ⌊x⌋ := by linarith
    have hxf : (⌊x⌋ : ℚ) ≤ x := Int.floor_le x
    unfold pythonRound
    rw [← heq]
    split_ifs <;> first | omega | linarith

theorem qclamp_le_qclamp {x y lo hi : ℚ} (h : x ≤ y) :
    qclamp x lo hi ≤ qclamp y lo hi :=
  max_le_max le_rfl (min_le_min le_rfl h)

theorem pythonRound_bounds {q : ℚ} (h0 : 0 ≤ q) (h100 : q ≤ 100) :
    0 ≤ pythonRound q ∧ pythonRound q ≤ 100 := by
  constructor
  · calc (0 : Int) = pythonRound ((0 : Int) : ℚ) := (pythonRound_intCast 0).symm
      _ ≤ pythonRound q := pythonRound_le_of_le (by exact_mod_cast h0)
  · calc pythonRound q ≤ pythonRound ((100 : Int) : ℚ) :=
        pythonRound_le_of_le (by exact_mod_cast h100)
      _ = 100 := pythonRound_intCast 100

theorem score_breakdown_sum (f v c b : Bool) (age : Option Int) (w : String → Option ℚ) :
    ((score_breakdown f v c b age w).map (fun s => s.contribution)).sum =
      effective_weight w "found_in_scam_db" * (if f then 1 else 0) +
      effective_weight w "voip" * (if v then 1 else 0) +
      effective_weight w "found_in_classifieds" * (if c then 1 else 0) +
      effective_weight w "business_listing" * (if b then 1 else 0) +
      (match age with
       | some d =>
         if 0 ≤ d then
           effective_weight w "age_of_first_mention_per_year" * qclamp ((d : ℚ) / 365) 0 10
         else 0
       | none => 0) := by
  cases age with
  | none =>
    simp [score_breakdown, add_bool_signal, age_signal]
    ring
  | some d =>
    by_cases hd : (0 : Int) ≤ d
    · simp [score_breakdown, add_bool_signal, age_signal, hd]
      ring
    · simp [score_breakdown, add_bool_signal, age_signal, hd]
      ring

/-- C7: with default weights, a scam-database hit alone scores 60; flipping
any single false boolean signal to true never decreases the score when the
effective weight of that signal is positive; and the score always lies in
[0, 100], for every input and weights mapping. -/
theorem score_risk_claim :
    (score_risk true false false false none (fun _ => none)).score = 60 ∧
    (∀ v c b age w, 0 < effective_weight w "found_in_scam_db" →
      (score_risk false v c b age w).score ≤ (score_risk true v c b age w).score) ∧
    (∀ f c b age w, 0 < effective_weight w "voip" →
      (score_risk f false c b age w).score ≤ (score_risk f true c b age w).score) ∧
    (∀ f v b age w, 0 < effective_weight w "found_in_classifieds" →
      (score_risk f v false b age w).score ≤ (score_risk f v true b age w).score) ∧
    (∀ f v c age w, 0 < effective_weight w "business_listing" →
      (score_risk f v c false age w).score ≤ (score_risk f v c true age w).score) ∧
    (∀ f v c b age w,
      0 ≤ (score_risk f v c b age w).score ∧ (score_risk f v c b age w).score ≤ 100) := by
  have hscore : ∀ f v c b age w, (score_risk f v c b age w).score =
      pythonRound (qclamp ((score_breakdown f v c b age w).map
        (fun s => s.contribution)).sum 0 100) := fun _ _ _ _ _ _ => rfl
  refine ⟨?_, ?_, ?_, ?_, ?_, ?_⟩
  · rw [hscore, score_breakdown_sum]
    have hw : effective_weight (fun _ => none) "found_in_scam_db" = 60 := by
      simp [effective_weight, default_score_weights, List.lookup]
    rw [hw]
    norm_num
    rw [show qclamp 60 0 100 = ((60 : Int) : ℚ) by
      rw [qclamp, max_def, min_def]; norm_num]
    exact pythonRound_intCast 60
  · intro v c b age w hw
    rw [hscore, hscore]
    apply pythonRound_le_of_le
    apply qclamp_le_qclamp
    rw [score_breakdown_sum, score_breakdown_sum]
    norm_num
    nlinarith [hw]
  · intro f c b age w hw
    rw [hscore, hscore]
    apply pythonRound_le_of_le
    apply qclamp_le_qclamp
    rw [score_breakdown_sum, score_breakdown_sum]
    norm_num
    nlinarith [hw]
  · intro f v b age w hw
    rw [hscore, hscore]
    apply pythonRound_le_of_le
    apply qclamp_le_qclamp
    rw [score_breakdown_sum, score_breakdown_sum]
    norm_num
    nlinarith [hw]
  · intro f v c age w hw
    rw [hscore, hscore]
    apply pythonRound_le_of_le
    apply qclamp_le_qclamp
    rw [score_breakdown_sum, score_breakdown_sum]
    norm_num
    nlinarith [hw]
  · intro f v c b age w
    rw [hscore]
    exact pythonRound_bounds (le_max_left _ _) (max_le (by norm_num) (min_le_left _ _))

theorem score_risk_claim_witness :
    (score_risk false false false false none (fun _ => none)).score ≤
      (score_risk true false false false none (fun _ => none)).score ∧
    (score_risk false false false false none (fun _ => none)).score ≤
      (score_risk false true false false none (fun _ => none)).score ∧
    0 ≤ (score_risk true true true true (some 400) (fun _ => none)).score ∧
    (score_risk true true true true (some 400) (fun _ => none)).score ≤ 100 := by
  have hw1 : (0 : ℚ) < effective_weight (fun _ => none) "found_in_scam_db" := by
    simp [effective_weight, default_score_weights, List.lookup]
  have hw2 : (0 : ℚ) < effective_weight (fun _ => none) "voip" := by
    simp [effective_weight, default_score_weights, List.lookup]
  refine ⟨score_risk_claim.2.1 false false false none (fun _ => none) hw1,
          score_risk_claim.2.2.1 false false false none (fun _ => none) hw2,
          (score_risk_claim.2.2.2.2.2 true true true true (some 400) (fun _ => none)).1,
          (score_risk_claim.2.2.2.2.2 true true true true (some 400) (fun _ => none)).2⟩

/-! ## Ownership classification -/

/-- C8: `classify` returns the PII owner category whenever PII is present;
otherwise `voip` whenever the voip flag is set, regardless of the
associations; otherwise `business` if any association is labelled
`business_listing`; otherwise `individual` if any association is labelled
`classified_ad`; otherwise `unknown`. -/
theorem classify_claim (pn : PhoneNumberM) (associations : List OwnerAssociationM)
    (voip_flag : Bool) (pii : Option OwnerPIIM) :
    (∀ p, pii = some p → classify pn associations voip_flag pii = p.owner_category) ∧
    (pii = none → voip_flag = true → classify pn associations voip_flag pii = "voip") ∧
    (pii = none → voip_flag = false →
      (∃ a ∈ associations, a.label = "business_listing") →
      classify pn associations voip_flag pii = "business") ∧
    (pii = none → voip_flag = false →
      (¬ ∃ a ∈ associations, a.label = "business_listing") →
      (∃ a ∈ associations, a.label = "classified_ad") →
      classify pn associations voip_flag pii = "individual") ∧
    (pii = none → voip_flag = false →
      (¬ ∃ a ∈ associations, a.label = "business_listing") →
      (¬ ∃ a ∈ associations, a.label = "classified_ad") →
      classify pn associations voip_flag pii = "unknown") := by
  refine ⟨?_, ?_, ?_, ?_, ?_⟩
  · intro p hp
    subst hp
    rfl
  · intro hp hv
    subst hp
    subst hv
    rfl
  · intro hp hv hb
    subst hp
    subst hv
    obtain ⟨a, ha, hlabel⟩ := hb
    have hany : associations.any (fun a => a.label == "business_listing") = true :=
      List.any_eq_true.mpr ⟨a, ha, by simp [hlabel]⟩
    simp [classify, hany]
  · intro hp hv hb hc
    subst hp
    subst hv
    obtain ⟨a, ha, hlabel⟩ := hc
    have hanyb : associations.any (fun a => a.label == "business_listing") = false := by
      rw [List.any_eq_false]
      intro x hx
      simp only [beq_iff_eq]
      exact fun hlx => hb ⟨x, hx, hlx⟩
    have hanyc : associations.any (fun a => a.label == "classified_ad") = true :=
      List.any_eq_true.mpr ⟨a, ha, by simp [hlabel]⟩
    simp [classify, hanyb, hanyc]
  · intro hp hv hb hc
    subst hp
    subst hv
    have hanyb : associations.any (fun a => a.label == "business_listing") = false := by
      rw [List.any_eq_false]
      intro x hx
      simp only [beq_iff_eq]
      exact fun hlx => hb ⟨x, hx, hlx⟩
    have hanyc : associations.any (fun a => a.label == "classified_ad") = false := by
      rw [List.any_eq_false]
      intro x hx
      simp only [beq_iff_eq]
      exact fun hlx => hc ⟨x, hx, hlx⟩
    simp [classify, hanyb, hanyc]

theorem classify_claim_witness :
    classify ⟨"+16502530000"⟩
      [⟨"duckduckgo", some "https://www.yelp.com/biz/example", "s", "business_listing"⟩]
      false none = "business" ∧
    classify ⟨"+16502530000"⟩
      [⟨"duckduckgo", some "https://www.yelp.com/biz/example", "s", "business_listing"⟩]
      true none = "voip" := by
  constructor
  · exact (classify_claim ⟨"+16502530000"⟩
      [⟨"duckduckgo", some "https://www.yelp.com/biz/example", "s", "business_listing"⟩]
      false none).2.2.1 rfl rfl ⟨_, List.mem_singleton.mpr rfl, rfl⟩
  · exact (classify_claim ⟨"+16502530000"⟩
      [⟨"duckduckgo", some "https://www.yelp.com/biz/example", "s", "business_listing"⟩]
      true none).2.1 rfl rfl

theorem cache_ttl_claim_witness :
    (cache_get (cache_set ([] : CacheTable Nat) "k" 7 10 100) "k" 105).1 = some 7 ∧
    (cache_get (cache_set ([] : CacheTable Nat) "k" 7 10 100) "k" 110).1 = none ∧
    (∃ row, cache_find ([⟨"k", 7, 200⟩] : CacheTable Nat) "k" = some row ∧
      (105 : Int) < row.expires_at ∧ row.value = 7) ∧
    cache_set ([] : CacheTable Nat) "k" 7 0 100 = [] := by
  refine ⟨(cache_ttl_claim [] "k" 7 10 100 105).1 (by norm_num) (by norm_num),
          ((cache_ttl_claim [] "k" 7 10 100 110).2.1 (by norm_num) (by norm_num)).1,
          (cache_ttl_claim [⟨"k", 7, 200⟩] "k" 9 10 100 105).2.2.1 7 (by rfl),
          (cache_ttl_claim [] "k" 7 0 100 0).2.2.2 (by norm_num)⟩
